import Mathlib

/-!
Shallow embedding of the openClaw email-client plugin core
(src/state.ts, src/imap.ts, src/monitor.ts, smtp module) and
verification of its specification claims.

Strings are modelled as lists of characters (`Str`), JavaScript records
as association lists with duplicate-free keys, and `Date.now()` as an
explicit `now : Nat` parameter (epoch milliseconds).
-/

namespace EmailClient

/-- Character-list model of JavaScript strings. -/
abbrev Str := List Char

/-- Coerce a Lean string literal into the `Str` model. -/
def str (s : String) : Str := s.toList

/-- `String.prototype.toLowerCase` (ASCII range, as exercised here). -/
def toLowerL (s : Str) : Str := s.map Char.toLower

/-- `a.startsWith b` ⇝ `prefixOfL b a`: is the first list a prefix of the second. -/
def prefixOfL : Str → Str → Bool
  | [], _ => true
  | _ :: _, [] => false
  | a :: as, b :: bs => a = b && prefixOfL as bs

/-- `a.endsWith b` ⇝ `suffixOfL b a`: is the first list a suffix of the second. -/
def suffixOfL (p s : Str) : Bool := prefixOfL p.reverse s.reverse

/-- Substring containment: `hay.includes needle`. -/
def hasInfix (needle : Str) : Str → Bool
  | [] => prefixOfL needle []
  | c :: cs => prefixOfL needle (c :: cs) || hasInfix needle cs

/-- Whitespace as matched by JavaScript `\s` / `trim` (ASCII range). -/
def jsWS (c : Char) : Bool := c = ' ' || c = '\t' || c = '\n' || c = '\r' || c = '\x0b' || c = '\x0c'

/-- `String.prototype.trim`. -/
def trimL (s : Str) : Str := ((s.dropWhile jsWS).reverse.dropWhile jsWS).reverse

/-- `text.split("\n")`. -/
def splitNl : Str → List Str
  | [] => [[]]
  | c :: rest =>
    if c = '\n' then [] :: splitNl rest
    else
      match splitNl rest with
      | [] => [[c]]
      | l :: ls => (c :: l) :: ls

/-- `lines.join("\n")`. -/
def joinNl (lines : List Str) : Str := List.intercalate ['\n'] lines

/-- Association-list lookup, modelling `record[key]` on a JS object. -/
def alookup {β : Type} : List (Str × β) → Str → Option β
  | [], _ => none
  | (k, v) :: rest, s => if k = s then some v else alookup rest s

/-- A JS object has no duplicate keys. -/
@[reducible] def keysNodup {β : Type} (l : List (Str × β)) : Prop := (l.map Prod.fst).Nodup

/-! ## state.ts — processed ids and rate limiting -/

/-- `MAX_PROCESSED_IDS` in state.ts. -/
def MAX_PROCESSED_IDS : Nat := 10000

/-- `RATE_LIMIT_WINDOW_MS` in state.ts (one hour). -/
def RATE_LIMIT_WINDOW_MS : Nat := 60 * 60 * 1000

/-- `ProcessedMessageStore` from types.ts (`lastPollTime` is advisory and omitted). -/
structure Store where
  processedIds : List Str
  rateLimits : List (Str × List Nat)
  deriving DecidableEq

/-- The in-memory cache (`stateCache`) together with the persisted file
contents written by the last `fs.writeFileSync`. -/
structure World where
  store : Store
  file : Option Store
  deriving DecidableEq

/-- `arr.slice(-k)` on a JavaScript array (for `k = 0`, `slice(-0) = slice(0)`
returns the whole array). -/
def jsSliceLast {α : Type} (xs : List α) (k : Nat) : List α :=
  if k = 0 then xs else xs.drop (xs.length - k)

/-- The timestamps of `ts` within the sliding window ending at `now`
(the filter `now - ts < RATE_LIMIT_WINDOW_MS` used throughout state.ts). -/
def tsRecent (now : Nat) (ts : List Nat) : List Nat :=
  ts.filter (fun t => now - t < RATE_LIMIT_WINDOW_MS)

/-- The rate-limit cleanup loop in `saveState`: each sender's list is filtered
to the window and senders left with no timestamps are deleted. -/
def rlCleanup (now : Nat) (rl : List (Str × List Nat)) : List (Str × List Nat) :=
  (rl.map (fun p => (p.1, tsRecent now p.2))).filter (fun p => ¬ p.2.isEmpty)

/-- `saveState`, as a function on the store: trim `processedIds` to the cap
and purge old rate-limit entries. -/
def saveStateStore (st : Store) (now : Nat) : Store :=
  { processedIds :=
      if st.processedIds.length > MAX_PROCESSED_IDS then
        jsSliceLast st.processedIds MAX_PROCESSED_IDS
      else st.processedIds,
    rateLimits := rlCleanup now st.rateLimits }

/-- `saveState`: the trimmed store becomes both the cache and the file contents. -/
def saveStateW (st : Store) (now : Nat) : World :=
  let st' := saveStateStore st now
  { store := st', file := some st' }

/-- `isMessageProcessed` (`state.processedIds.includes(messageId)`). -/
def isMessageProcessed (w : World) (messageId : Str) : Bool :=
  decide (messageId ∈ w.store.processedIds)

/-- `markMessageProcessed`: append and save only when the id is absent. -/
def markMessageProcessed (messageId : Str) (now : Nat) (w : World) : World :=
  if messageId ∈ w.store.processedIds then w
  else saveStateW { w.store with processedIds := w.store.processedIds ++ [messageId] } now

/-- `checkRateLimit`: true when the sender is still allowed a reply. -/
def checkRateLimit (w : World) (sender : Str) (maxPerHour : Nat) (now : Nat) : Bool :=
  (tsRecent now ((alookup w.store.rateLimits sender).getD [])).length < maxPerHour

/-- `record[key] = value` on a JS object: replace in place or append a new key. -/
def aupdate {β : Type} : List (Str × β) → Str → β → List (Str × β)
  | [], k, v => [(k, v)]
  | (k', v') :: rest, k, v =>
    if k' = k then (k, v) :: rest else (k', v') :: aupdate rest k v

/-- `recordReply`: push `now` onto the sender's timestamp list and save. -/
def recordReply (sender : Str) (now : Nat) (w : World) : World :=
  let existing := (alookup w.store.rateLimits sender).getD []
  saveStateW { w.store with rateLimits := aupdate w.store.rateLimits sender (existing ++ [now]) } now

/-! ## imap.ts — auto-reply detection, ignored senders, quote stripping, fetch -/

/-- The `autoReplyHeaders` list in `isAutoReply`. -/
def autoReplyHeaders : List Str :=
  [str "x-auto-reply", str "x-autoreply", str "auto-submitted", str "x-autorespond", str "precedence"]

/-- The body of the `for` loop in `isAutoReply`, evaluated for the first
header present with a truthy (non-empty) value. Every branch yields `true`;
the conditionals on `auto-submitted`/`precedence`/"auto" are kept as written. -/
def autoReplyValueCheck (header v : Str) : Bool :=
  if header = str "auto-submitted" && v ≠ str "no" then true
  else if header = str "precedence" &&
      (toLowerL v = str "bulk" || toLowerL v = str "junk" || toLowerL v = str "list") then true
  else if hasInfix (str "auto") (toLowerL v) then true
  else true

/-- The `for` loop of `isAutoReply`: return at the first header whose value is
truthy, otherwise continue. -/
def isAutoReplyLoop (headers : List (Str × Str)) : List Str → Bool
  | [] => false
  | h :: rest =>
    match alookup headers h with
    | some v => if v ≠ [] then autoReplyValueCheck h v else isAutoReplyLoop headers rest
    | none => isAutoReplyLoop headers rest

/-- `isAutoReply` over a message's (lower-cased-key) header record. -/
def isAutoReply (headers : List (Str × Str)) : Bool :=
  isAutoReplyLoop headers autoReplyHeaders

/-- `isIgnoredSender`: the fixed anchored, case-insensitive patterns. -/
def isIgnoredSender (email : Str) : Bool :=
  let e := toLowerL email
  prefixOfL (str "noreply@") e || prefixOfL (str "no-reply@") e ||
  prefixOfL (str "mailer-daemon@") e || prefixOfL (str "postmaster@") e ||
  prefixOfL (str "bounce") e ||
  prefixOfL (str "notification@") e || prefixOfL (str "notifications@") e ||
  prefixOfL (str "donotreply@") e || prefixOfL (str "do-not-reply@") e

/-- `/^On .+ wrote:$/i` applied to a (trimmed) line. -/
def matchOnWrote (t : Str) : Bool :=
  prefixOfL (str "on ") (toLowerL t) && suffixOfL (str " wrote:") (toLowerL t) &&
  decide (11 ≤ (toLowerL t).length)

/-- `/^-{2,}\s*Original Message/i` applied to a (trimmed) line. -/
def matchOrigMsg (t : Str) : Bool :=
  decide (2 ≤ ((toLowerL t).takeWhile (fun c => c = '-')).length) &&
  prefixOfL (str "original message")
    (((toLowerL t).dropWhile (fun c => c = '-')).dropWhile jsWS)

/-- `/^>+/` applied to a (trimmed) line: at least one leading `>`. -/
def matchQuoteLine (s : Str) : Bool :=
  match s with
  | c :: _ => c = '>'
  | [] => false

/-- `/^--\s*$/` applied to the raw line: exactly two hyphens then whitespace. -/
def matchSigDelim (line : Str) : Bool :=
  prefixOfL (str "--") line && (line.drop 2).all jsWS

/-- The line loop of `stripQuotedContent`: `inQ` is `inQuotedBlock`. -/
def stripLoop (inQ : Bool) : List Str → List Str
  | [] => []
  | line :: rest =>
    if matchOnWrote (trimL line) then stripLoop true rest
    else if matchOrigMsg (trimL line) then stripLoop true rest
    else if matchQuoteLine (trimL line) then stripLoop inQ rest
    else if matchSigDelim line then []
    else if inQ then stripLoop inQ rest
    else line :: stripLoop inQ rest

/-- `stripQuotedContent`. -/
def stripQuotedContent (text : Str) : Str :=
  trimL (joinNl (stripLoop false (splitNl text)))

/-- One message in the watched folder as `fetchUnreadEmails` sees it: its UID,
its seen flag at call time, and its parsed form (`none` when `simpleParser` /
`parseMailToEmail` rejects it — such messages are skipped). -/
structure MailboxMsg where
  uid : Nat
  seen : Bool
  parsed : Option Str
  deriving DecidableEq

/-- `fetchUnreadEmails client folder limit`: search unseen, keep the last
`limit` uids, fetch and parse each in mailbox order. The mailbox is the
folder's message list in ascending-UID (server) order; the output pairs each
kept message's uid with its parsed form. -/
def fetchUnreadEmails (mailbox : List MailboxMsg) (limit : Nat) : List (Nat × Str) :=
  let unseen := mailbox.filter (fun m => ¬ m.seen)
  if unseen.isEmpty then []
  else (jsSliceLast unseen limit).filterMap (fun m => m.parsed.map (fun e => (m.uid, e)))

/-! ## smtp.ts — reply composition and transport -/

/-- `EmailThreadInfo` from types.ts. -/
structure EmailThreadInfo where
  messageId : Str
  inReplyTo : Str
  references : List Str
  deriving DecidableEq

/-- `buildReplySubject`: prepend `pfx` unless already present case-insensitively. -/
def buildReplySubject (originalSubject pfx : Str) : Str :=
  if prefixOfL (toLowerL pfx) (toLowerL originalSubject) then originalSubject
  else pfx ++ originalSubject

/-- `buildThreadInfo`. The outgoing id combines `Date.now()` and
`Math.random()`; that nondeterministic fresh id is passed in as `newId`. -/
def buildThreadInfo (newId : Str) (originalMessageId : Str)
    (originalReferences : Option (List Str)) : EmailThreadInfo :=
  let references := originalReferences.getD []
  let references :=
    if originalMessageId ≠ [] ∧ originalMessageId ∉ references then
      references ++ [originalMessageId]
    else references
  { messageId := newId, inReplyTo := originalMessageId, references := references }

/-- The `nodemailer.SendMailOptions` object assembled inside `sendEmail`
(`headers` is `none` when no thread info is present). -/
structure MailOptions where
  fromField : Str
  toAddr : Str
  subject : Str
  text : Str
  html : Option Str
  headers : Option (List (Str × Str))
  deriving DecidableEq

/-- The inputs of `sendEmail` other than the transporter. -/
structure SendEmailOptions where
  fromAddr : Str
  fromName : Option Str
  toAddr : Str
  subject : Str
  text : Str
  html : Option Str
  threadInfo : Option EmailThreadInfo
  signature : Option Str

/-- `refs.join(" ")`. -/
def joinSpace (refs : List Str) : Str := List.intercalate [' '] refs

/-- A truthy optional string (absent and `""` are falsy in JS). -/
def optTruthy (s : Option Str) : Bool :=
  match s with
  | some v => v ≠ []
  | none => false

/-- The message-building half of `sendEmail` (everything before
`transporter.sendMail`; none of it can throw). -/
def buildMessageOptions (opts : SendEmailOptions) : MailOptions :=
  { fromField :=
      match opts.fromName with
      | some n => if n ≠ [] then str "\"" ++ n ++ str "\" <" ++ opts.fromAddr ++ str ">" else opts.fromAddr
      | none => opts.fromAddr,
    toAddr := opts.toAddr,
    subject := opts.subject,
    text :=
      if optTruthy opts.signature then opts.text ++ str "\n\n" ++ opts.signature.getD []
      else opts.text,
    html :=
      match opts.html with
      | some h =>
        if h ≠ [] then
          some (if optTruthy opts.signature then
                  h ++ str "<br><br><pre>" ++ opts.signature.getD [] ++ str "</pre>"
                else h)
        else none
      | none => none,
    headers :=
      match opts.threadInfo with
      | some ti =>
        some ((if ti.inReplyTo ≠ [] then [(str "In-Reply-To", ti.inReplyTo)] else []) ++
              (if ¬ ti.references.isEmpty then [(str "References", joinSpace ti.references)] else []))
      | none => none }

/-- The result record of `sendEmail`. -/
structure SendResult where
  ok : Bool
  messageId : Option Str
  error : Option Str
  deriving DecidableEq

/-- The outbound transport: `transporter.sendMail`, which either resolves
with a message id or rejects with an error message. -/
def Transporter : Type := MailOptions → Except Str Str

/-- `sendEmail`: the whole body is a `try`; a transport rejection is caught
and turned into `{ok := false, error}`. -/
def sendEmail (transporter : Transporter) (opts : SendEmailOptions) : SendResult :=
  match transporter (buildMessageOptions opts) with
  | .ok mid => { ok := true, messageId := some mid, error := none }
  | .error e => { ok := false, messageId := none, error := some e }

/-! ## monitor.ts — processEmail, the filter pipeline -/

/-- The fields of a `ParsedEmail` that `processEmail`'s filter pipeline reads. -/
structure PEmail where
  messageId : Str
  fromAddr : Str
  headers : List (Str × Str)
  uid : Nat

/-- The observable outcome of one `processEmail` call: the state-store world
afterwards, whether `markAsRead` was called for the message's uid, and
whether `runtime.processInbound` (the responder) was invoked. -/
structure ProcResult where
  world : World
  markedSeen : Bool
  responderInvoked : Bool

/-- `processEmail`. The opaque responder callback (`runtime.processInbound`,
which may call the `reply` closure and hence `sendEmail`/`recordReply`) is
modelled as an arbitrary state transformer `responder : World → World`. -/
def processEmail (accountEmail : Str) (maxReplies : Nat) (now : Nat)
    (responder : World → World) (email : PEmail) (w : World) : ProcResult :=
  if isMessageProcessed w email.messageId then
    { world := w, markedSeen := false, responderInvoked := false }
  else if toLowerL email.fromAddr = toLowerL accountEmail then
    { world := markMessageProcessed email.messageId now w, markedSeen := true, responderInvoked := false }
  else if isAutoReply email.headers then
    { world := markMessageProcessed email.messageId now w, markedSeen := true, responderInvoked := false }
  else if isIgnoredSender email.fromAddr then
    { world := markMessageProcessed email.messageId now w, markedSeen := true, responderInvoked := false }
  else if ¬ checkRateLimit w email.fromAddr maxReplies now then
    { world := markMessageProcessed email.messageId now w, markedSeen := true, responderInvoked := false }
  else
    let w1 := responder w
    { world := markMessageProcessed email.messageId now w1, markedSeen := true, responderInvoked := true }

/-- A sequence of `markMessageProcessed` calls (message id paired with the
`Date.now()` of the call), applied in order. -/
def applyMarks (calls : List (Str × Nat)) (w : World) : World :=
  calls.foldl (fun w c => markMessageProcessed c.1 c.2 w) w

/-! ## Helper lemmas -/

theorem prefixOfL_append_self (a b : Str) : prefixOfL a (a ++ b) = true := by
  induction a with
  | nil => rfl
  | cons c cs ih => simp [prefixOfL, ih]

theorem saveStateStore_processedIds (st : Store) (now : Nat) :
    (saveStateStore st now).processedIds =
      if MAX_PROCESSED_IDS < st.processedIds.length then
        st.processedIds.drop (st.processedIds.length - MAX_PROCESSED_IDS)
      else st.processedIds := by
  show (if st.processedIds.length > MAX_PROCESSED_IDS then
          jsSliceLast st.processedIds MAX_PROCESSED_IDS else st.processedIds) = _
  unfold jsSliceLast
  by_cases h : MAX_PROCESSED_IDS < st.processedIds.length
  · rw [if_pos h, if_pos h, if_neg (by decide : ¬ (MAX_PROCESSED_IDS = 0))]
  · rw [if_neg h, if_neg h]

theorem mem_of_getLastQ {l : List Str} {a : Str} (h : l.getLast? = some a) : a ∈ l := by
  rcases l.eq_nil_or_concat with hnil | ⟨l', b, hlb⟩
  · simp [hnil] at h
  · rw [List.concat_eq_append] at hlb
    rw [hlb, List.getLast?_concat] at h
    rw [hlb, Option.some_inj.mp h]
    exact List.mem_append_right _ (List.mem_singleton.mpr rfl)

theorem mem_saveStateStore_of_getLastQ {st : Store} {now : Nat} {id : Str}
    (h : st.processedIds.getLast? = some id) :
    id ∈ (saveStateStore st now).processedIds := by
  rw [saveStateStore_processedIds]
  by_cases hlen : MAX_PROCESSED_IDS < st.processedIds.length
  · rw [if_pos hlen]
    rcases st.processedIds.eq_nil_or_concat with hnil | ⟨l, a, hla⟩
    · simp [hnil] at h
    · rw [List.concat_eq_append] at hla
      have ha : a = id := by
        rw [hla, List.getLast?_concat] at h
        exact Option.some_inj.mp h
      subst ha
      rw [hla] at hlen ⊢
      have hk : (l ++ [a]).length - MAX_PROCESSED_IDS ≤ l.length := by
        simp only [List.length_append, List.length_singleton] at hlen ⊢
        have : 0 < MAX_PROCESSED_IDS := by decide
        omega
      rw [List.drop_append_of_le_length hk]
      exact List.mem_append_right _ (List.mem_singleton.mpr rfl)
  · rw [if_neg hlen]
    exact mem_of_getLastQ h

theorem mem_markMessageProcessed (id : Str) (now : Nat) (w : World) :
    id ∈ (markMessageProcessed id now w).store.processedIds := by
  unfold markMessageProcessed
  by_cases h : id ∈ w.store.processedIds
  · rw [if_pos h]
    exact h
  · rw [if_neg h]
    exact mem_saveStateStore_of_getLastQ (List.getLast?_concat _)

theorem nodup_saveStateStore (st : Store) (now : Nat) (h : st.processedIds.Nodup) :
    (saveStateStore st now).processedIds.Nodup := by
  rw [saveStateStore_processedIds]
  by_cases hlen : MAX_PROCESSED_IDS < st.processedIds.length
  · rw [if_pos hlen]
    exact (List.drop_sublist _ _).nodup h
  · rw [if_neg hlen]
    exact h

theorem nodup_markMessageProcessed (id : Str) (now : Nat) (w : World)
    (h : w.store.processedIds.Nodup) :
    (markMessageProcessed id now w).store.processedIds.Nodup := by
  unfold markMessageProcessed
  by_cases hm : id ∈ w.store.processedIds
  · rw [if_pos hm]
    exact h
  · rw [if_neg hm]
    refine nodup_saveStateStore _ _ ?_
    refine h.append (List.nodup_singleton id) ?_
    intro a ha hb
    rw [List.mem_singleton] at hb
    subst hb
    exact hm ha

theorem buildThreadInfo_refs (newId pid : Str) (refs : List Str) :
    (buildThreadInfo newId pid (some refs)).references
      = if pid ≠ [] ∧ pid ∉ refs then refs ++ [pid] else refs := rfl

theorem alookup_none_of_not_mem_keys {β : Type} {l : List (Str × β)} {s : Str}
    (h : s ∉ l.map Prod.fst) : alookup l s = none := by
  induction l with
  | nil => rfl
  | cons p rest ih =>
    obtain ⟨k, v⟩ := p
    simp only [List.map_cons, List.mem_cons, not_or] at h
    simp only [alookup]
    rw [if_neg (fun hk => h.1 hk.symm)]
    exact ih h.2

theorem keys_rlCleanup_sub {now : Nat} {rl : List (Str × List Nat)} {s : Str}
    (h : s ∈ (rlCleanup now rl).map Prod.fst) : s ∈ rl.map Prod.fst := by
  unfold rlCleanup at h
  have hsub := ((List.filter_sublist (rl.map (fun p => (p.1, tsRecent now p.2)))).map Prod.fst).subset h
  rw [List.map_map] at hsub
  simpa using hsub

theorem alookup_rlCleanup_sub {now : Nat} {rl : List (Str × List Nat)}
    (hwf : keysNodup rl) (s : Str) (t : Nat)
    (ht : t ∈ (alookup (rlCleanup now rl) s).getD []) :
    t ∈ (alookup rl s).getD [] := by
  induction rl with
  | nil => simp [rlCleanup, alookup] at ht
  | cons p rest ih =>
    obtain ⟨k, ts⟩ := p
    unfold keysNodup at hwf
    simp only [List.map_cons, List.nodup_cons] at hwf
    by_cases he : tsRecent now ts = []
    · have hcl : rlCleanup now ((k, ts) :: rest) = rlCleanup now rest := by
        simp [rlCleanup, List.filter_cons, he]
      rw [hcl] at ht
      by_cases hs : k = s
      · subst hs
        have hnk : k ∉ (rlCleanup now rest).map Prod.fst :=
          fun hmem => hwf.1 (keys_rlCleanup_sub hmem)
        rw [alookup_none_of_not_mem_keys hnk] at ht
        simp at ht
      · simp only [alookup]
        rw [if_neg hs]
        exact ih hwf.2 ht
    · have hcl : rlCleanup now ((k, ts) :: rest)
          = (k, tsRecent now ts) :: rlCleanup now rest := by
        simp [rlCleanup, List.filter_cons, he]
      rw [hcl] at ht
      by_cases hs : k = s
      · simp only [alookup] at ht ⊢
        rw [if_pos hs] at ht ⊢
        simp only [Option.getD_some] at ht ⊢
        exact List.mem_of_mem_filter ht
      · simp only [alookup] at ht ⊢
        rw [if_neg hs] at ht ⊢
        exact ih hwf.2 ht

theorem alookup_markMessageProcessed_sub (id : Str) (now : Nat) (w : World)
    (hwf : keysNodup w.store.rateLimits) (s : Str) (t : Nat)
    (ht : t ∈ (alookup (markMessageProcessed id now w).store.rateLimits s).getD []) :
    t ∈ (alookup w.store.rateLimits s).getD [] := by
  unfold markMessageProcessed at ht
  by_cases hm : id ∈ w.store.processedIds
  · rw [if_pos hm] at ht
    exact ht
  · rw [if_neg hm] at ht
    exact alookup_rlCleanup_sub hwf s t ht

theorem stripLoop_true_eq_nil (lines : List Str) : stripLoop true lines = [] := by
  induction lines with
  | nil => rfl
  | cons l rest ih => simp [stripLoop, ih]

theorem stripLoop_congr (pre : List Str) (rest₁ rest₂ : List Str)
    (h : ∀ q', stripLoop q' rest₁ = stripLoop q' rest₂) (q : Bool) :
    stripLoop q (pre ++ rest₁) = stripLoop q (pre ++ rest₂) := by
  induction pre generalizing q with
  | nil => exact h q
  | cons l pre ih =>
    simp only [List.cons_append, stripLoop]
    by_cases h1 : matchOnWrote (trimL l) = true
    · simp [h1, ih]
    · by_cases h2 : matchOrigMsg (trimL l) = true
      · simp [h1, h2, ih]
      · by_cases h3 : matchQuoteLine (trimL l) = true
        · simp [h1, h2, h3, ih]
        · by_cases h4 : matchSigDelim l = true
          · simp [h1, h2, h3, h4]
          · cases q <;> simp [h1, h2, h3, h4, ih]

theorem matchOnWrote_cons_ne (c : Char) (t : Str) (h : Char.toLower c ≠ 'o') :
    matchOnWrote (c :: t) = false := by
  unfold matchOnWrote toLowerL
  rw [List.map_cons]
  rw [show str "on " = 'o' :: str "n " from rfl]
  simp [prefixOfL, Ne.symm h]

theorem matchOrigMsg_cons_ne (c : Char) (t : Str) (h : Char.toLower c ≠ '-') :
    matchOrigMsg (c :: t) = false := by
  unfold matchOrigMsg toLowerL
  rw [List.map_cons, List.takeWhile_cons]
  simp [h]

theorem quote_shape {s : Str} (h : matchQuoteLine s = true) : ∃ t, s = '>' :: t := by
  cases s with
  | nil => simp [matchQuoteLine] at h
  | cons c cs =>
    simp only [matchQuoteLine, decide_eq_true_eq] at h
    exact ⟨cs, by rw [h]⟩

theorem dropWhile_all_append {p : Char → Bool} (xs ys : List Char) (h : xs.all p = true) :
    (xs ++ ys).dropWhile p = ys.dropWhile p := by
  induction xs with
  | nil => rfl
  | cons c cs ih =>
    simp only [List.all_cons, Bool.and_eq_true] at h
    rw [List.cons_append, List.dropWhile_cons, if_pos h.1]
    exact ih h.2

theorem sigDelim_shape {l : Str} (h : matchSigDelim l = true) :
    ∃ rest, l = '-' :: '-' :: rest ∧ rest.all jsWS = true := by
  unfold matchSigDelim at h
  rw [show str "--" = ['-', '-'] from rfl] at h
  cases l with
  | nil => simp [prefixOfL] at h
  | cons a l1 =>
    cases l1 with
    | nil => simp [prefixOfL] at h
    | cons b l2 =>
      simp only [prefixOfL, Bool.and_eq_true, decide_eq_true_eq, List.drop_succ_cons,
        List.drop_zero] at h
      obtain ⟨⟨ha, hb, _⟩, hall⟩ := h
      exact ⟨l2, by rw [← ha, ← hb], hall⟩

theorem trimL_sigDelim {l : Str} (h : matchSigDelim l = true) : trimL l = ['-', '-'] := by
  obtain ⟨rest, rfl, hall⟩ := sigDelim_shape h
  unfold trimL
  rw [List.dropWhile_cons, if_neg (by decide)]
  rw [show ('-' :: '-' :: rest).reverse = rest.reverse ++ ['-', '-'] from by simp]
  rw [dropWhile_all_append _ _ (by rwa [List.all_reverse])]
  decide

theorem processEmail_skip (acct : Str) (maxR now : Nat) (responder : World → World)
    (email : PEmail) (w : World)
    (hc : isMessageProcessed w email.messageId = false)
    (hmatch : toLowerL email.fromAddr = toLowerL acct ∨ isAutoReply email.headers = true ∨
        isIgnoredSender email.fromAddr = true ∨
        checkRateLimit w email.fromAddr maxR now = false) :
    processEmail acct maxR now responder email w
      = ⟨markMessageProcessed email.messageId now w, true, false⟩ := by
  unfold processEmail
  rw [if_neg (by simp [hc])]
  by_cases c2 : toLowerL email.fromAddr = toLowerL acct
  · rw [if_pos c2]
  · rw [if_neg c2]
    by_cases c3 : isAutoReply email.headers = true
    · rw [if_pos c3]
    · rw [if_neg c3]
      by_cases c4 : isIgnoredSender email.fromAddr = true
      · rw [if_pos c4]
      · rw [if_neg c4]
        by_cases c5 : checkRateLimit w email.fromAddr maxR now = false
        · rw [if_pos (by simp [c5])]
        · rcases hmatch with h | h | h | h
          exacts [absurd h c2, absurd h c3, absurd h c4, absurd h c5]

/-! ## Claim theorems -/

/-- C3 (code bug witness): a message whose only auto-reply-related header is
`auto-submitted: no` IS classified as an auto-reply by the code, because the
final `return true` inside the `if (value)` block is unconditional — the
`value !== "no"` guard is dead code. -/
theorem isAutoReply_auto_submitted_no_matches :
    isAutoReply [(str "auto-submitted", str "no")] = true := by decide

/-- C4: after every save, `processedIds` holds at most `MAX_PROCESSED_IDS`
entries, and when more than the cap were added the saved store keeps exactly
the cap count — the most recently added ids, in order (oldest dropped). -/
theorem saveState_caps_processed_ids (st : Store) (now : Nat) :
    (saveStateStore st now).processedIds.length ≤ MAX_PROCESSED_IDS ∧
    (MAX_PROCESSED_IDS < st.processedIds.length →
      (saveStateStore st now).processedIds
          = st.processedIds.drop (st.processedIds.length - MAX_PROCESSED_IDS) ∧
      (saveStateStore st now).processedIds.length = MAX_PROCESSED_IDS) := by
  rw [saveStateStore_processedIds]
  by_cases h : MAX_PROCESSED_IDS < st.processedIds.length
  · rw [if_pos h]
    simp only [List.length_drop]
    exact ⟨by omega, fun _ => ⟨by trivial, by omega⟩⟩
  · rw [if_neg h]
    exact ⟨by omega, fun hc => absurd hc h⟩

/-- C4 witness: saving a store of 10001 ids keeps exactly the last 10000. -/
theorem saveState_caps_processed_ids_witness :
    (saveStateStore ⟨List.replicate 10001 (str "x"), []⟩ 0).processedIds
        = (⟨List.replicate 10001 (str "x"), []⟩ : Store).processedIds.drop
            ((⟨List.replicate 10001 (str "x"), []⟩ : Store).processedIds.length - MAX_PROCESSED_IDS) ∧
    (saveStateStore ⟨List.replicate 10001 (str "x"), []⟩ 0).processedIds.length = MAX_PROCESSED_IDS :=
  (saveState_caps_processed_ids ⟨List.replicate 10001 (str "x"), []⟩ 0).2
    (by show MAX_PROCESSED_IDS < (List.replicate 10001 (str "x")).length
        simp only [List.length_replicate]
        decide)

/-- C5 counterexample: with parent id `p` and parent reference chain
`["p", "a"]`, the produced references list is `["p", "a"]` — it does NOT end
with the immediate parent's id, contrary to the claim. -/
theorem buildThreadInfo_not_end_with_parent :
    (buildThreadInfo (str "n") (str "p") (some [str "p", str "a"])).references.getLast?
      ≠ some (str "p") := by decide

/-- C5 (amended): `references` is the parent chain with the parent id appended
when the parent id is non-empty and not already present ANYWHERE in the chain
(and the chain unchanged otherwise); duplicate-freeness is preserved, and the
result ends with the parent id when the parent id is absent from the chain or
already its last element. -/
theorem buildThreadInfo_references_props (newId pid : Str) (refs : List Str) :
    (refs.Nodup → (buildThreadInfo newId pid (some refs)).references.Nodup) ∧
    (pid ≠ [] → pid ∉ refs →
        (buildThreadInfo newId pid (some refs)).references = refs ++ [pid] ∧
        (buildThreadInfo newId pid (some refs)).references.getLast? = some pid) ∧
    (pid ∈ refs ∨ pid = [] → (buildThreadInfo newId pid (some refs)).references = refs) ∧
    (pid ≠ [] → refs.getLast? = some pid →
        (buildThreadInfo newId pid (some refs)).references.getLast? = some pid) := by
  by_cases h : pid ≠ [] ∧ pid ∉ refs
  · rw [buildThreadInfo_refs, if_pos h]
    refine ⟨?_, fun _ _ => ⟨rfl, List.getLast?_concat _⟩, ?_, fun _ _ => List.getLast?_concat _⟩
    · intro hn
      rw [List.nodup_append]
      exact ⟨hn, List.nodup_singleton _, fun a ha hb => h.2 ((List.mem_singleton.mp hb) ▸ ha)⟩
    · rintro (hmem | hnil)
      · exact absurd hmem h.2
      · exact absurd hnil h.1
  · rw [buildThreadInfo_refs, if_neg h]
    exact ⟨fun hn => hn, fun hne hnm => absurd ⟨hne, hnm⟩ h, fun _ => rfl, fun _ hl => hl⟩

/-- C5 witness: parent id `p` absent from chain `["a"]` is appended and ends
the chain. -/
theorem buildThreadInfo_references_props_witness :
    (buildThreadInfo (str "n") (str "p") (some [str "a"])).references = [str "a"] ++ [str "p"] ∧
    (buildThreadInfo (str "n") (str "p") (some [str "a"])).references.getLast? = some (str "p") :=
  (buildThreadInfo_references_props (str "n") (str "p") [str "a"]).2.1 (by decide) (by decide)

/-- C8: `buildReplySubject` is idempotent — prefixing an already-prefixed
subject (case-insensitively) changes nothing. -/
theorem buildReplySubject_idempotent (s p : Str) :
    buildReplySubject (buildReplySubject s p) p = buildReplySubject s p := by
  unfold buildReplySubject
  by_cases h : prefixOfL (toLowerL p) (toLowerL s) = true
  · rw [if_pos h, if_pos h]
  · rw [if_neg h]
    have hp : prefixOfL (toLowerL p) (toLowerL (p ++ s)) = true := by
      unfold toLowerL
      rw [List.map_append]
      exact prefixOfL_append_self _ _
    rw [if_pos hp]

/-- C10: `markMessageProcessed` keeps `processedIds` duplicate-free over any
sequence of calls starting from a duplicate-free store, and a call with an id
already present leaves the world — in-memory store and persisted file alike —
completely unchanged (no append, no save). -/
theorem markMessageProcessed_nodup_and_noop (calls : List (Str × Nat)) (id : Str)
    (now : Nat) (w : World) :
    (w.store.processedIds.Nodup → (applyMarks calls w).store.processedIds.Nodup) ∧
    (id ∈ w.store.processedIds → markMessageProcessed id now w = w) := by
  constructor
  · intro h
    induction calls generalizing w with
    | nil => exact h
    | cons c cs ih =>
      exact ih (markMessageProcessed c.1 c.2 w) (nodup_markMessageProcessed c.1 c.2 w h)
  · intro h
    simp [markMessageProcessed, h]

/-- C1 counterexample: for a message whose id is already in
`ProcessedStore.processedIds` (rule 1), `processEmail` returns without calling
`markAsRead` — the message is NOT marked seen in the mailbox, contrary to the
claim that every matching rule marks the message both processed and seen. -/
theorem processEmail_rule_one_not_marked_seen :
    (processEmail (str "me@x.com") 5 0 id
        ⟨str "m1", str "a@b.com", [], 1⟩ ⟨⟨[str "m1"], []⟩, none⟩).markedSeen = false := by
  decide

/-- C1 (amended): the five rules are applied in the stated order and any match
short-circuits without invoking the responder; for rules 2–5 the message is
recorded in `processedIds` and marked seen, but a rule-1 match (id already in
`processedIds`, which takes priority over all later rules) leaves the store,
the persisted file and the mailbox seen flag unchanged. -/
theorem processEmail_pipeline_order (acct : Str) (maxR now : Nat)
    (responder : World → World) (email : PEmail) (w : World) :
    (email.messageId ∈ w.store.processedIds →
        processEmail acct maxR now responder email w = ⟨w, false, false⟩) ∧
    (email.messageId ∉ w.store.processedIds →
      (toLowerL email.fromAddr = toLowerL acct ∨ isAutoReply email.headers = true ∨
          isIgnoredSender email.fromAddr = true ∨
          checkRateLimit w email.fromAddr maxR now = false) →
        (processEmail acct maxR now responder email w).responderInvoked = false ∧
        (processEmail acct maxR now responder email w).markedSeen = true ∧
        email.messageId ∈ (processEmail acct maxR now responder email w).world.store.processedIds) := by
  constructor
  · intro h
    have hc : isMessageProcessed w email.messageId = true := by
      simp [isMessageProcessed, h]
    simp [processEmail, hc]
  · intro hnot hor
    have hc : isMessageProcessed w email.messageId = false := by
      simp [isMessageProcessed, hnot]
    rw [processEmail_skip acct maxR now responder email w hc hor]
    exact ⟨rfl, rfl, mem_markMessageProcessed _ _ _⟩

/-- C1 witness: a message already in the store short-circuits with the world
untouched, no mark-as-read, no responder call. -/
theorem processEmail_pipeline_order_witness :
    processEmail (str "me@x.com") 5 0 id
        ⟨str "m2", str "a@b.com", [], 1⟩ ⟨⟨[str "m2"], []⟩, none⟩
      = ⟨⟨⟨[str "m2"], []⟩, none⟩, false, false⟩ :=
  (processEmail_pipeline_order (str "me@x.com") 5 0 id
      ⟨str "m2", str "a@b.com", [], 1⟩ ⟨⟨[str "m2"], []⟩, none⟩).1 (by decide)

/-- C2: when the sender's count of window-recent recorded reply timestamps is
at or above the ceiling, the responder is not invoked and no new timestamp is
recorded for the sender; and a timestamp a full window older than `now` never
counts toward the ceiling. -/
theorem processEmail_rate_limited_skip (acct : Str) (maxR now : Nat)
    (responder : World → World) (email : PEmail) (w : World)
    (hwf : keysNodup w.store.rateLimits)
    (hcount : maxR ≤ (tsRecent now ((alookup w.store.rateLimits email.fromAddr).getD [])).length) :
    (processEmail acct maxR now responder email w).responderInvoked = false ∧
    (∀ t, t ∈ (alookup (processEmail acct maxR now responder email w).world.store.rateLimits
            email.fromAddr).getD [] →
        t ∈ (alookup w.store.rateLimits email.fromAddr).getD []) ∧
    (∀ (t0 : Nat) (ts : List Nat), t0 + RATE_LIMIT_WINDOW_MS ≤ now →
        tsRecent now (t0 :: ts) = tsRecent now ts) := by
  have hwindow : ∀ (t0 : Nat) (ts : List Nat), t0 + RATE_LIMIT_WINDOW_MS ≤ now →
      tsRecent now (t0 :: ts) = tsRecent now ts := by
    intro t0 ts h
    unfold tsRecent
    rw [List.filter_cons]
    have hold : ¬ (now - t0 < RATE_LIMIT_WINDOW_MS) := by omega
    simp [hold]
  have hck : checkRateLimit w email.fromAddr maxR now = false := by
    unfold checkRateLimit
    simp only [decide_eq_false_iff_not]
    omega
  by_cases c1 : email.messageId ∈ w.store.processedIds
  · have hr : processEmail acct maxR now responder email w = ⟨w, false, false⟩ := by
      simp [processEmail, isMessageProcessed, c1]
    rw [hr]
    exact ⟨rfl, fun t ht => ht, hwindow⟩
  · have hc : isMessageProcessed w email.messageId = false := by
      simp [isMessageProcessed, c1]
    rw [processEmail_skip acct maxR now responder email w hc (Or.inr (Or.inr (Or.inr hck)))]
    exact ⟨rfl, fun t ht => alookup_markMessageProcessed_sub _ _ _ hwf _ t ht, hwindow⟩

/-- C2 witness: with five window-recent timestamps and ceiling five, the
responder is not invoked. -/
theorem processEmail_rate_limited_skip_witness :
    (processEmail (str "me@x.com") 5 0 id
        ⟨str "m3", str "a@b.com", [], 1⟩
        ⟨⟨[], [(str "a@b.com", [0, 0, 0, 0, 0])]⟩, none⟩).responderInvoked = false :=
  (processEmail_rate_limited_skip (str "me@x.com") 5 0 id
      ⟨str "m3", str "a@b.com", [], 1⟩
      ⟨⟨[], [(str "a@b.com", [0, 0, 0, 0, 0])]⟩, none⟩
      (by decide) (by decide)).1

/-- C6: `sendEmail` is a total function — a transport success yields
`{ok := true}` with the message id, a transport failure is captured into the
`error` field of the result instead of propagating; and the caller
(`processEmail`) records the message in `processedIds` no matter what the
responder (and hence any reply delivery) did. -/
theorem sendEmail_result_and_mark (tr : Transporter) (opts : SendEmailOptions) :
    (∀ mid, tr (buildMessageOptions opts) = .ok mid →
        sendEmail tr opts = ⟨true, some mid, none⟩) ∧
    (∀ e, tr (buildMessageOptions opts) = .error e →
        sendEmail tr opts = ⟨false, none, some e⟩) ∧
    (∀ (acct : Str) (maxR now : Nat) (responder : World → World) (email : PEmail) (w : World),
        email.messageId ∈ (processEmail acct maxR now responder email w).world.store.processedIds) := by
  refine ⟨?_, ?_, ?_⟩
  · intro mid h
    unfold sendEmail
    rw [h]
  · intro e h
    unfold sendEmail
    rw [h]
  · intro acct maxR now responder email w
    by_cases c1 : email.messageId ∈ w.store.processedIds
    · have hr : processEmail acct maxR now responder email w = ⟨w, false, false⟩ := by
        simp [processEmail, isMessageProcessed, c1]
      rw [hr]
      exact c1
    · have hc : isMessageProcessed w email.messageId = false := by
        simp [isMessageProcessed, c1]
      unfold processEmail
      rw [if_neg (by simp [hc])]
      split_ifs <;> exact mem_markMessageProcessed _ _ _

/-- C6 witness: a transporter that resolves yields an ok result carrying the
message id. -/
theorem sendEmail_result_and_mark_witness :
    sendEmail (fun _ => Except.ok (str "mid-1"))
        ⟨str "me@x.com", none, str "a@b.com", str "Re: hi", str "hello", none, none, none⟩
      = ⟨true, some (str "mid-1"), none⟩ :=
  (sendEmail_result_and_mark (fun _ => Except.ok (str "mid-1"))
      ⟨str "me@x.com", none, str "a@b.com", str "Re: hi", str "hello", none, none, none⟩).1
    (str "mid-1") rfl

/-- C7 counterexample: with two unseen parseable messages (uids 1 and 2) and
limit 2, the fetch returns them in ascending-uid order `[1, 2]` — oldest
first — not most-recent-first as the claim states. -/
theorem fetchUnreadEmails_oldest_first :
    (fetchUnreadEmails [⟨1, false, some (str "e1")⟩, ⟨2, false, some (str "e2")⟩] 2).map Prod.fst
        = [1, 2] ∧ ([1, 2] : List Nat) ≠ [2, 1] := by decide

/-- C7 (amended): for a positive limit, the fetch returns only messages
unseen at call time, at most `limit` of them; the kept messages are exactly a
suffix (the most recent `min limit n`) of the unseen list; and the result is
in ascending (oldest-first) uid order, not most-recent-first. -/
theorem fetchUnreadEmails_selection (mailbox : List MailboxMsg) (limit : Nat)
    (hsorted : mailbox.Pairwise (fun a b => a.uid < b.uid)) (hlim : 1 ≤ limit) :
    (∀ p ∈ fetchUnreadEmails mailbox limit,
        ∃ m ∈ mailbox, m.seen = false ∧ m.uid = p.1 ∧ m.parsed = some p.2) ∧
    (fetchUnreadEmails mailbox limit).length ≤ limit ∧
    (∃ dropped kept, mailbox.filter (fun m => ¬ m.seen) = dropped ++ kept ∧
        kept.length = min limit (mailbox.filter (fun m => ¬ m.seen)).length ∧
        fetchUnreadEmails mailbox limit
          = kept.filterMap (fun m => m.parsed.map (fun e => (m.uid, e)))) ∧
    (fetchUnreadEmails mailbox limit).Pairwise (fun a b => a.1 < b.1) := by
  by_cases he : (mailbox.filter (fun m => ¬ m.seen)).isEmpty
  · have h0 : mailbox.filter (fun m => ¬ m.seen) = [] := List.isEmpty_iff.mp he
    have hf : fetchUnreadEmails mailbox limit = [] := by
      unfold fetchUnreadEmails
      rw [if_pos he]
    refine ⟨by simp [hf], by simp [hf], ⟨[], [], by simpa using h0, by rw [h0]; simp,
      by simp [hf]⟩, by simp [hf]⟩
  · have hf : fetchUnreadEmails mailbox limit
        = ((mailbox.filter (fun m => ¬ m.seen)).drop
              ((mailbox.filter (fun m => ¬ m.seen)).length - limit)).filterMap
            (fun m => m.parsed.map (fun e => (m.uid, e))) := by
      unfold fetchUnreadEmails jsSliceLast
      rw [if_neg he, if_neg (by omega : ¬ limit = 0)]
    refine ⟨?_, ?_, ?_, ?_⟩
    · intro p hp
      rw [hf, List.mem_filterMap] at hp
      obtain ⟨m, hm, hfm⟩ := hp
      have hm' : m ∈ mailbox.filter (fun m => ¬ m.seen) := (List.drop_sublist _ _).subset hm
      rw [List.mem_filter] at hm'
      obtain ⟨e, hpe, hep⟩ := Option.map_eq_some'.mp hfm
      refine ⟨m, hm'.1, by simpa using hm'.2, ?_, ?_⟩
      · rw [← hep]
      · rw [hpe, ← hep]
    · rw [hf]
      refine le_trans (List.length_filterMap_le _ _) ?_
      rw [List.length_drop]
      omega
    · refine ⟨(mailbox.filter (fun m => ¬ m.seen)).take
          ((mailbox.filter (fun m => ¬ m.seen)).length - limit),
        (mailbox.filter (fun m => ¬ m.seen)).drop
          ((mailbox.filter (fun m => ¬ m.seen)).length - limit),
        (List.take_append_drop _ _).symm, ?_, hf⟩
      rw [List.length_drop]
      omega
    · rw [hf]
      have hu : (mailbox.filter (fun m => ¬ m.seen)).Pairwise (fun a b => a.uid < b.uid) :=
        hsorted.filter _
      have hd := List.Pairwise.sublist
          (List.drop_sublist ((mailbox.filter (fun m => ¬ m.seen)).length - limit) _) hu
      rw [List.pairwise_filterMap]
      refine hd.imp ?_
      intro a b hlt p hp p' hp'
      obtain ⟨e, _, hep⟩ := Option.map_eq_some'.mp hp
      obtain ⟨e', _, hep'⟩ := Option.map_eq_some'.mp hp'
      rw [← hep, ← hep']
      exact hlt

/-- C7 witness: a single unseen message with positive limit satisfies the
bound. -/
theorem fetchUnreadEmails_selection_witness :
    (fetchUnreadEmails [⟨1, false, some (str "e1")⟩] 1).length ≤ 1 :=
  (fetchUnreadEmails_selection [⟨1, false, some (str "e1")⟩] 1
      (by decide) (by decide)).2.1

/-- C9 counterexample: a bare line of THREE hyphens does not truncate the
text — `/^--\s*$/` matches exactly two hyphens — so the claimed
"two or more hyphens" delimiter is wrong. -/
theorem stripQuotedContent_three_hyphens_kept :
    stripQuotedContent (str "a\n---\nb") = str "a\n---\nb" ∧
    stripQuotedContent (str "a\n---\nb") ≠ str "a" := by decide

/-- C9 (amended): in the quote-stripping loop, a line matching
`On ... wrote:` excludes itself and every later line (output equals that of
the preceding lines alone); a quote-prefixed (`>`) line is dropped; and a
signature delimiter line of EXACTLY two hyphens (plus optional trailing
whitespace) truncates, keeping only what the preceding lines produce. -/
theorem stripQuotedContent_line_rules (q : Bool) (pre post : List Str) (line : Str) :
    (matchOnWrote (trimL line) = true →
        stripLoop q (pre ++ line :: post) = stripLoop q pre) ∧
    (matchQuoteLine (trimL line) = true →
        stripLoop q (pre ++ line :: post) = stripLoop q (pre ++ post)) ∧
    (matchSigDelim line = true →
        stripLoop q (pre ++ line :: post) = stripLoop q pre) := by
  refine ⟨?_, ?_, ?_⟩
  · intro h
    have hstep : ∀ q', stripLoop q' (line :: post) = stripLoop q' [] := by
      intro q'
      simp [stripLoop, h, stripLoop_true_eq_nil]
    rw [stripLoop_congr pre _ _ hstep q, List.append_nil]
  · intro h
    obtain ⟨t, hq⟩ := quote_shape h
    have h1 : matchOnWrote (trimL line) = false := by
      rw [hq]
      exact matchOnWrote_cons_ne '>' t (by decide)
    have h2 : matchOrigMsg (trimL line) = false := by
      rw [hq]
      exact matchOrigMsg_cons_ne '>' t (by decide)
    have hstep : ∀ q', stripLoop q' (line :: post) = stripLoop q' post := by
      intro q'
      simp [stripLoop, h1, h2, h]
    exact stripLoop_congr pre _ _ hstep q
  · intro h
    have htr : trimL line = ['-', '-'] := trimL_sigDelim h
    have h1 : matchOnWrote (trimL line) = false := by rw [htr]; decide
    have h2 : matchOrigMsg (trimL line) = false := by rw [htr]; decide
    have h3 : matchQuoteLine (trimL line) = false := by rw [htr]; decide
    have hstep : ∀ q', stripLoop q' (line :: post) = stripLoop q' [] := by
      intro q'
      simp [stripLoop, h1, h2, h3, h]
    rw [stripLoop_congr pre _ _ hstep q, List.append_nil]

/-- C9 witness: a `>`-prefixed line is dropped from the loop output. -/
theorem stripQuotedContent_line_rules_witness :
    stripLoop false [str "a", str "> x", str "b"] = stripLoop false [str "a", str "b"] :=
  (stripQuotedContent_line_rules false [str "a"] [str "b"] (str "> x")).2.1 (by decide)

/-- C10 witness: marking twice from the empty store stays duplicate-free, and
re-marking an already-present id is the identity. -/
theorem markMessageProcessed_nodup_and_noop_witness :
    (applyMarks [(str "m1", 0), (str "m1", 1)] ⟨⟨[], []⟩, none⟩).store.processedIds.Nodup :=
  (markMessageProcessed_nodup_and_noop [(str "m1", 0), (str "m1", 1)] (str "m1") 0
      ⟨⟨[], []⟩, none⟩).1 (by decide)

end EmailClient
